import Mathlib

/-!
Verification development for the spotifygpt session-state / novelty-budget /
recommendation-sequencing core.  Python sources are shallowly embedded:
floats become exact rationals (all the constants involved are decimal
literals), `dict`s become association lists, `set`s become lists used only
through membership, and fallible operations return `Option`/`Except`.
-/

namespace SpotifyGpt

/-- Python's `round` (banker's rounding: round half to even), on rationals. -/
def pythonRound (q : ℚ) : ℤ :=
  let f : ℤ := ⌊q⌋
  let frac : ℚ := q - f
  if frac < 1/2 then f
  else if 1/2 < frac then f + 1
  else if f % 2 = 0 then f else f + 1

/-- Python's `round(q, 2)`. -/
def round2 (q : ℚ) : ℚ := (pythonRound (q * 100) : ℚ) / 100

/-- Python's `round(q, 3)`. -/
def round3 (q : ℚ) : ℚ := (pythonRound (q * 1000) : ℚ) / 1000

/-- Python's binary `min` on rationals (kernel-reducible). -/
def minQ (a b : ℚ) : ℚ := if a ≤ b then a else b

/-- Python's binary `max` on rationals (kernel-reducible). -/
def maxQ (a b : ℚ) : ℚ := if b ≤ a then a else b

/-! ## session_state.py -/

/-- `SessionState`: coarse-grained session health state. -/
inductive SessionState where
  | CALIENTE
  | NEUTRO
  | FRAGIL
  | CRITICO
deriving DecidableEq, Repr

/-- The `.value` string of a `SessionState` enum member. -/
def SessionState.value : SessionState → String
  | .CALIENTE => "CALIENTE"
  | .NEUTRO => "NEUTRO"
  | .FRAGIL => "FRAGIL"
  | .CRITICO => "CRITICO"

/-- `SessionState(s)` on a string argument: the enum member whose value is `s`,
`none` when Python would raise `ValueError`. -/
def sessionStateOfString (s : String) : Option SessionState :=
  if s = "CALIENTE" then some .CALIENTE
  else if s = "NEUTRO" then some .NEUTRO
  else if s = "FRAGIL" then some .FRAGIL
  else if s = "CRITICO" then some .CRITICO
  else none

/-- `SessionEvent`: a single playback outcome. -/
structure SessionEvent where
  skipped : Bool
  early_skip : Bool
deriving DecidableEq, Repr

/-- `SessionInterventions`: interventions derived from the current state. -/
structure SessionInterventions where
  explorationMultiplier : ℚ
  shouldInjectAnchor : Bool
  shouldSuggestReset : Bool
deriving DecidableEq, Repr

/-- `SessionStateMachine`'s mutable fields.  The window size is an `int` in
Python (any integer value is constructible), hence `ℤ` here. -/
structure SessionStateMachine where
  earlySkipWindowSize : ℤ
  skipRunLen : ℕ
  completeRunLen : ℕ
  earlySkipRecentWindow : List Bool
deriving DecidableEq, Repr

/-- A freshly constructed `SessionStateMachine(early_skip_window_size=sz)`. -/
def freshMachine (sz : ℤ) : SessionStateMachine := ⟨sz, 0, 0, []⟩

/-- `SessionStateMachine._resolve_state`. -/
def resolveState (skipRunLen earlySkipRecent completeRunLen : ℕ) : SessionState :=
  if 4 ≤ skipRunLen ∨ 2 ≤ earlySkipRecent then .CRITICO
  else if 2 ≤ skipRunLen then .FRAGIL
  else if 3 ≤ completeRunLen then .CALIENTE
  else .NEUTRO

/-- `SessionStateMachine._resolve_interventions`. -/
def resolveInterventions : SessionState → SessionInterventions
  | .CALIENTE => ⟨1, false, false⟩
  | .NEUTRO => ⟨0.8, false, false⟩
  | .FRAGIL => ⟨0.4, true, false⟩
  | .CRITICO => ⟨0.2, true, true⟩

/-- `SessionSnapshot`: current machine state, counters and interventions. -/
structure SessionSnapshot where
  state : SessionState
  skipRunLen : ℕ
  completeRunLen : ℕ
  earlySkipRecent : ℕ
  interventions : SessionInterventions
deriving DecidableEq, Repr

/-- The eviction loop `while len(window) > size: window.popleft()`.
`popleft` on an empty deque raises `IndexError`, modelled as `none`
(reachable exactly when `size` is negative). -/
def trimWindow : List Bool → ℤ → Option (List Bool)
  | [], size => if size < 0 then none else some []
  | b :: t, size =>
    if size < (t.length + 1 : ℤ) then trimWindow t size else some (b :: t)

/-- `SessionStateMachine.snapshot` (pure: reads counters only). -/
def SessionStateMachine.snapshot (m : SessionStateMachine) : SessionSnapshot :=
  let earlySkipRecent := (m.earlySkipRecentWindow.filter id).length
  let state := resolveState m.skipRunLen earlySkipRecent m.completeRunLen
  ⟨state, m.skipRunLen, m.completeRunLen, earlySkipRecent, resolveInterventions state⟩

/-- `SessionStateMachine.apply`: update counters, push `early_skip` into the
window, evict from the front while over capacity, return the snapshot and the
updated machine.  `none` models the `IndexError` from the eviction loop. -/
def SessionStateMachine.apply (m : SessionStateMachine) (e : SessionEvent) :
    Option (SessionSnapshot × SessionStateMachine) :=
  let m1 : SessionStateMachine :=
    if e.early_skip then
      { m with skipRunLen := m.skipRunLen + 1, completeRunLen := 0 }
    else if e.skipped then
      { m with skipRunLen := m.skipRunLen + 1, completeRunLen := 0 }
    else
      { m with completeRunLen := m.completeRunLen + 1, skipRunLen := 0 }
  match trimWindow (m1.earlySkipRecentWindow ++ [e.early_skip]) m1.earlySkipWindowSize with
  | none => none
  | some w =>
    let m2 := { m1 with earlySkipRecentWindow := w }
    some (m2.snapshot, m2)

/-- Feed a list of events through a machine, collecting the state of each
returned snapshot; `none` if any `apply` raises. -/
def runStates (m : SessionStateMachine) : List SessionEvent → Option (List SessionState)
  | [] => some []
  | e :: es =>
    match m.apply e with
    | none => none
    | some (snap, m2) => (runStates m2 es).map (snap.state :: ·)

/-- Feed a list of events through a machine, collecting every returned
snapshot; `none` if any `apply` raises. -/
def runSnapshots (m : SessionStateMachine) : List SessionEvent → Option (List SessionSnapshot)
  | [] => some []
  | e :: es =>
    match m.apply e with
    | none => none
    | some (snap, m2) => (runSnapshots m2 es).map (snap :: ·)

/-- The CLI's `complete` event. -/
def completeEv : SessionEvent := ⟨false, false⟩

/-- The CLI's `skip` event. -/
def skipEv : SessionEvent := ⟨true, false⟩

/-- The CLI's `early-skip` event. -/
def earlySkipEv : SessionEvent := ⟨true, true⟩

/-! ## novelty_budget.py -/

/-- `NoveltyBudget`.  `anchor_every_n` is a Python `int | None`, hence
`Option ℤ`. -/
structure NoveltyBudget where
  exploration : ℚ
  anchorRatio : ℚ
  anchorEveryN : Option ℤ := none
deriving DecidableEq, Repr

/-- `compute_novelty_budget` on an already-resolved `SessionState`. -/
def computeNoveltyBudget (timeBlock : String) (state : SessionState) : NoveltyBudget :=
  let exploration : ℚ :=
    match state with
    | .CALIENTE => 0.6
    | .NEUTRO => 0.4
    | .FRAGIL => 0.2
    | .CRITICO => 0.1
  let exploration :=
    if timeBlock = "MORNING" ∨ timeBlock = "AFTERNOON" then exploration + 0.05
    else if timeBlock = "NIGHT" ∨ timeBlock = "LATE_NIGHT" then exploration - 0.05
    else exploration
  let exploration := round2 (minQ 0.8 (maxQ 0 exploration))
  let anchorEveryN : Option ℤ :=
    match state with
    | .FRAGIL => some 2
    | .CRITICO => some 1
    | _ => none
  ⟨exploration, round2 (1 - exploration), anchorEveryN⟩

/-- `compute_novelty_budget` when `session_state` is passed as a string:
`SessionState(session_state)` raises `ValueError` (`none`) on unknown
strings. -/
def computeNoveltyBudgetStr (timeBlock stateStr : String) : Option NoveltyBudget :=
  (sessionStateOfString stateStr).map (computeNoveltyBudget timeBlock)

/-! ## novelty_sequencer.py -/

/-- The dedup loop of `apply_novelty_budget`: keep the first occurrence of
each id, tracking the already-seen ids in `seen`. -/
def dedupFirstAux (seen : List String) : List String → List String
  | [] => []
  | t :: ts => if t ∈ seen then dedupFirstAux seen ts else t :: dedupFirstAux (t :: seen) ts

/-- `unique_candidates` as built by `apply_novelty_budget`. -/
def uniqueCandidates (candidates : List String) : List String :=
  dedupFirstAux [] candidates

/-- The main emission loop of `apply_novelty_budget`: walk the remaining
candidates with the set of already-emitted ids and the non-anchor run length
`since` since the last emitted anchor; before emitting a non-anchor when
`since ≥ everyN - 1`, pull forward the first not-yet-emitted anchor found in
the rest of the list, if any. -/
def seqGo (anchors : List String) (everyN : ℕ) :
    List String → List String → ℕ → List String
  | [], _, _ => []
  | t :: rest, emitted, since =>
    if t ∈ emitted then seqGo anchors everyN rest emitted since
    else if t ∉ anchors ∧ everyN - 1 ≤ since then
      match rest.find? (fun c => decide (c ∈ anchors) && decide (c ∉ emitted)) with
      | some a => a :: t :: seqGo anchors everyN rest (t :: a :: emitted) 1
      | none => t :: seqGo anchors everyN rest (t :: emitted) (since + 1)
    else
      t :: seqGo anchors everyN rest (t :: emitted) (if t ∈ anchors then 0 else since + 1)

/-- `apply_novelty_budget`.  The Python `anchors` argument is a `set[str]`
used only through emptiness and membership tests; it is embedded as a list. -/
def applyNoveltyBudget (candidates anchors : List String) (budget : NoveltyBudget) :
    List String :=
  let uc := uniqueCandidates candidates
  if uc.isEmpty then []
  else if anchors.isEmpty then uc
  else
    match budget.anchorEveryN with
    | none => uc
    | some n => seqGo anchors (max 1 n).toNat uc [] 0

/-! ## behavior_hook.py -/

/-- `ANCHOR_BOOST`. -/
def ANCHOR_BOOST : ℚ := 1

/-- `BehaviorHookResult`.  `scores` is a Python dict, embedded as an
association list preserving insertion order. -/
structure BehaviorHookResult where
  scores : List (String × ℚ)
  needsAnchor : Bool
  shouldSuggestReset : Bool

/-- The boost step `adjusted_scores[track_id] += ANCHOR_BOOST` guarded by
`if track_id in adjusted_scores`. -/
def boostOne (trackId : String) (scores : List (String × ℚ)) : List (String × ℚ) :=
  scores.map (fun p => if p.1 = trackId then (p.1, p.2 + ANCHOR_BOOST) else p)

/-- `apply_session_interventions`.  The Python loop iterates over
`set(anchor_track_ids)`; each distinct id is processed once, so the set is
embedded as the first-occurrence dedup of the id list (iteration order is
irrelevant to the resulting map). -/
def applySessionInterventions (baseScores : List (String × ℚ))
    (interventions : SessionInterventions) (anchorTrackIds : Option (List String)) :
    BehaviorHookResult :=
  let adjusted := baseScores.map (fun p => (p.1, p.2 * interventions.explorationMultiplier))
  let anchorIds := anchorTrackIds.getD []
  let needsAnchor := interventions.shouldInjectAnchor && anchorIds.isEmpty
  let final :=
    if interventions.shouldInjectAnchor && !anchorIds.isEmpty then
      (dedupFirstAux [] anchorIds).foldl (fun sc trackId => boostOne trackId sc) adjusted
    else adjusted
  ⟨final, needsAnchor, interventions.shouldSuggestReset⟩

/-! ## diurnal.py -/

/-- `_WEEKDAY_SCHEDULE`: (block, inclusive start minute, inclusive end minute). -/
def WEEKDAY_SCHEDULE : List (String × ℕ × ℕ) :=
  [("NIGHT", 0, 119), ("LATE_NIGHT", 120, 359), ("MORNING", 360, 719),
   ("AFTERNOON", 720, 1019), ("EVENING", 1020, 1259), ("NIGHT", 1260, 1439)]

/-- `_WEEKEND_SCHEDULE` (weekday schedule shifted +60 minutes). -/
def WEEKEND_SCHEDULE : List (String × ℕ × ℕ) :=
  [("NIGHT", 0, 179), ("LATE_NIGHT", 180, 419), ("MORNING", 420, 779),
   ("AFTERNOON", 780, 1079), ("EVENING", 1080, 1319), ("NIGHT", 1320, 1439)]

/-- `get_time_block`, keyed by weekend-ness (`moment.weekday() >= 5`) and the
minute of day (`hour * 60 + minute`).  `none` models the fatal
`RuntimeError` branch reached when no interval matches. -/
def getTimeBlock (weekend : Bool) (minuteOfDay : ℕ) : Option String :=
  let schedule := if weekend then WEEKEND_SCHEDULE else WEEKDAY_SCHEDULE
  (schedule.find? (fun e => decide (e.2.1 ≤ minuteOfDay) && decide (minuteOfDay ≤ e.2.2))).map
    (fun e => e.1)

/-- The five known time blocks (`_BLOCKS` / the `_TIME_BLOCKS` set). -/
def TIME_BLOCKS : List String := ["MORNING", "AFTERNOON", "EVENING", "NIGHT", "LATE_NIGHT"]

/-- The `"energy"` entry of `_FEATURE_PRIORS[block]` (the only feature-prior
entry the context engine reads). -/
def energyPrior (block : String) : Option ℚ :=
  if block = "MORNING" then some 0.62
  else if block = "AFTERNOON" then some 0.68
  else if block = "EVENING" then some 0.64
  else if block = "NIGHT" then some 0.54
  else if block = "LATE_NIGHT" then some 0.38
  else none

/-! ## context_engine.py -/

/-- One row of `_STATE_CONFIG`. -/
structure StateConfig where
  explorationMultiplier : ℚ
  anchorRatio : ℚ
  anchorEveryN : Option ℤ
  sequencingStrategy : String
  energyWidth : ℚ
  tempoWidth : ℤ

/-- `_STATE_CONFIG`, keyed by the session-state string. -/
def stateConfig (s : String) : Option StateConfig :=
  if s = "CALIENTE" then some ⟨1, 0.15, none, "flow_explore", 0.18, 24⟩
  else if s = "NEUTRO" then some ⟨0.8, 0.25, some 5, "balanced", 0.14, 20⟩
  else if s = "FRAGIL" then some ⟨0.4, 0.45, some 3, "stabilize_with_anchors", 0.10, 16⟩
  else if s = "CRITICO" then some ⟨0.2, 0.65, some 2, "recovery_mode", 0.08, 12⟩
  else none

/-- The four known session-state strings (the keys of `_STATE_CONFIG`). -/
def SESSION_STATES : List String := ["CALIENTE", "NEUTRO", "FRAGIL", "CRITICO"]

/-- `_TEMPO_PRIOR_BY_BLOCK`. -/
def tempoPrior (block : String) : Option ℤ :=
  if block = "MORNING" then some 112
  else if block = "AFTERNOON" then some 124
  else if block = "EVENING" then some 122
  else if block = "NIGHT" then some 108
  else if block = "LATE_NIGHT" then some 92
  else none

/-- `MusicalDNA` as consumed by the context engine.  The DNA provider
interface guarantees `feature_summary["energy"].mean` and
`feature_summary["tempo"].mean`; those two means are the only fields read. -/
structure MusicalDNA where
  energyMean : ℚ
  tempoMean : ℚ

/-- `ListeningContext`. -/
structure ListeningContext where
  timeBlock : String
  sessionState : String
  mode : Option String
  dnaProfile : MusicalDNA
  fatigueScore : ℚ := 0
  energyOverride : Option ℚ := none

/-- `RecommendationPlan`.  The `explanation` map (presentation-only strings)
is not modelled. -/
structure RecommendationPlan where
  targetEnergyRange : ℚ × ℚ
  targetTempoRange : ℤ × ℤ
  explorationMultiplier : ℚ
  anchorRatio : ℚ
  anchorEveryN : Option ℤ
  sequencingStrategy : String

/-- `_clamp`. -/
def clampQ (value low high : ℚ) : ℚ := maxQ low (minQ high value)

/-- `_validate_context`: the first `ValueError` message raised, if any,
checked in source order. -/
def validateContext (ctx : ListeningContext) : Option String :=
  if ctx.timeBlock ∉ TIME_BLOCKS then some "Unknown time_block"
  else if (stateConfig ctx.sessionState).isNone then some "Unknown session_state"
  else if ¬ (0 ≤ ctx.fatigueScore ∧ ctx.fatigueScore ≤ 1) then
    some "fatigue_score must be between 0.0 and 1.0"
  else
    match ctx.energyOverride with
    | some e =>
      if ¬ (0 ≤ e ∧ e ≤ 1) then some "energy_override must be between 0.0 and 1.0" else none
    | none => none

/-- `compute_recommendation_plan`: validation first (`Except.error` models the
`ValueError`), then the deterministic plan computation.  The inner table
lookups mirror Python dict indexing; the `"internal"` arm models the
`KeyError` that indexing a missing key would raise (proved unreachable once
validation has passed). -/
def computeRecommendationPlan (ctx : ListeningContext) :
    Except String RecommendationPlan :=
  match validateContext ctx with
  | some msg => .error msg
  | none =>
    match stateConfig ctx.sessionState, energyPrior ctx.timeBlock, tempoPrior ctx.timeBlock with
    | some cfg, some ep, some tp =>
      let energyCenter0 := 0.6 * ctx.dnaProfile.energyMean + 0.4 * ep
        - ctx.fatigueScore * 0.25
      let energyCenter :=
        match ctx.energyOverride with
        | some e => e
        | none => energyCenter0
      let energyCenter := clampQ energyCenter 0 1
      let energyLow := clampQ (energyCenter - cfg.energyWidth) 0 1
      let energyHigh := clampQ (energyCenter + cfg.energyWidth) 0 1
      let tempoCenter := 0.6 * ctx.dnaProfile.tempoMean + 0.4 * (tp : ℚ)
        - ctx.fatigueScore * 20 + (energyCenter - 0.5) * 20
      let tempoLow := max 40 (pythonRound (tempoCenter - (cfg.tempoWidth : ℚ)))
      let tempoHigh := min 220 (pythonRound (tempoCenter + (cfg.tempoWidth : ℚ)))
      let mult := round3 (clampQ (cfg.explorationMultiplier * (1 - 0.5 * ctx.fatigueScore)) 0.1 1.2)
      let ratio := round3 (clampQ (cfg.anchorRatio + 0.10 * ctx.fatigueScore) 0.05 0.8)
      .ok ⟨(round3 energyLow, round3 energyHigh), (tempoLow, tempoHigh), mult, ratio,
        cfg.anchorEveryN, cfg.sequencingStrategy⟩
    | _, _, _ => .error "internal"

/-! ## recommendation_pipeline.py -/

/-- A candidate track dict: `id`, `energy`, `tempo`, `is_anchor` accessed via
`.get` with defaults `""`, `0.0`, `0.0`, `False`; the record carries the
post-default values. -/
structure Track where
  id : String
  energy : ℚ := 0
  tempo : ℚ := 0
  isAnchor : Bool := false
deriving DecidableEq, Repr

/-- `_within_range` (inclusive on both bounds). -/
def withinRange (value : ℚ) (lo hi : ℚ) : Bool :=
  decide (lo ≤ value) && decide (value ≤ hi)

/-- Python `abs` on rationals. -/
def absQ (q : ℚ) : ℚ := if q < 0 then -q else q

/-- Strict lexicographic comparison on the sort key `(tempo, energy, id)`. -/
def keyLtTempoEnergy (a b : Track) : Bool :=
  if a.tempo < b.tempo then true
  else if b.tempo < a.tempo then false
  else if a.energy < b.energy then true
  else if b.energy < a.energy then false
  else decide (a.id < b.id)

/-- Strict lexicographic comparison on the sort key `(energy, tempo, id)`. -/
def keyLtEnergyTempo (a b : Track) : Bool :=
  if a.energy < b.energy then true
  else if b.energy < a.energy then false
  else if a.tempo < b.tempo then true
  else if b.tempo < a.tempo then false
  else decide (a.id < b.id)

/-- Strict lexicographic comparison on `_target_distance`'s key
`(|energy - energy_center|, |tempo - tempo_center|, id)`. -/
def keyLtDistance (plan : RecommendationPlan) (a b : Track) : Bool :=
  let ec := (plan.targetEnergyRange.1 + plan.targetEnergyRange.2) / 2
  let tc := ((plan.targetTempoRange.1 : ℚ) + (plan.targetTempoRange.2 : ℚ)) / 2
  let da := absQ (a.energy - ec)
  let db := absQ (b.energy - ec)
  if da < db then true
  else if db < da then false
  else
    let ta := absQ (a.tempo - tc)
    let tb := absQ (b.tempo - tc)
    if ta < tb then true
    else if tb < ta then false
    else decide (a.id < b.id)

/-- Insert `x` before the first strictly-greater element: the building block
of a stable ascending sort (equal keys keep their relative order). -/
def insertStrictBy (lt : Track → Track → Bool) (x : Track) : List Track → List Track
  | [] => [x]
  | y :: ys => if lt x y then x :: y :: ys else y :: insertStrictBy lt x ys

/-- Python's stable `sorted(tracks, key=...)`, embedded as left-to-right
insertion with a strict key comparison. -/
def stableSortBy (lt : Track → Track → Bool) (l : List Track) : List Track :=
  l.foldl (fun acc x => insertStrictBy lt x acc) []

/-- `_order_tracks`. -/
def orderTracks (plan : RecommendationPlan) (tracks : List Track) : List Track :=
  if plan.sequencingStrategy = "flow_explore" then stableSortBy keyLtTempoEnergy tracks
  else if plan.sequencingStrategy = "stabilize_with_anchors"
      ∨ plan.sequencingStrategy = "recovery_mode" then stableSortBy keyLtEnergyTempo tracks
  else if plan.sequencingStrategy = "balanced" then tracks
  else stableSortBy (keyLtDistance plan) tracks

/-- `_select_exploration_tracks`: truncate to
`round(len * exploration_multiplier)` clamped to `[0, len]`. -/
def selectExplorationTracks (candidates : List Track) (plan : RecommendationPlan) :
    List Track :=
  if candidates.isEmpty then []
  else
    let keep := pythonRound ((candidates.length : ℚ) * plan.explorationMultiplier)
    let keep := max 0 (min (candidates.length : ℤ) keep)
    candidates.take keep.toNat

/-- The emission loop of `_inject_by_every_n`: append each exploration track,
and once `every_n` tracks have passed since the last anchor, append the next
unused anchor. -/
def injectEveryNGo (everyN : ℤ) (expl anchors : List Track) (count : ℤ) : List Track :=
  match expl with
  | [] => []
  | t :: ts =>
    if everyN ≤ count + 1 then
      match anchors with
      | [] => t :: injectEveryNGo everyN ts [] (count + 1)
      | a :: rest => t :: a :: injectEveryNGo everyN ts rest 0
    else t :: injectEveryNGo everyN ts anchors (count + 1)

/-- `_inject_by_every_n`. -/
def injectByEveryN (exploration anchors : List Track) (everyN : ℤ) : List Track :=
  if everyN ≤ 0 then exploration
  else
    let output := injectEveryNGo everyN exploration anchors 0
    if exploration.isEmpty && !anchors.isEmpty then output ++ anchors.take 1 else output

/-- The emission loop of `_inject_by_ratio`: `idx` is the 1-based position of
the next exploration track; an anchor is appended after every `interval`-th
track while anchors remain, and leftover anchors are appended at the end. -/
def injectRatioGo (interval : ℕ) (expl : List Track) (idx : ℕ) (used : List Track) :
    List Track :=
  match expl with
  | [] => used
  | t :: ts =>
    if (idx + 1) % interval = 0 then
      match used with
      | [] => t :: injectRatioGo interval ts (idx + 1) []
      | a :: rest => t :: a :: injectRatioGo interval ts (idx + 1) rest
    else t :: injectRatioGo interval ts (idx + 1) used

/-- `_inject_by_ratio`. -/
def injectByRatio (exploration anchors : List Track) (anchorRatio : ℚ) : List Track :=
  if exploration.isEmpty then anchors.take 1
  else
    let target := pythonRound ((exploration.length : ℚ) * anchorRatio)
    let target := (max 0 (min (anchors.length : ℤ) target)).toNat
    if target = 0 then exploration
    else
      let used := anchors.take target
      let interval := max 1 (exploration.length / target)
      injectRatioGo interval exploration 0 used

/-- The inclusive range filter of `build_recommendation`. -/
def filterSurvivors (candidates : List Track) (plan : RecommendationPlan) : List Track :=
  candidates.filter (fun t =>
    withinRange t.energy plan.targetEnergyRange.1 plan.targetEnergyRange.2
      && withinRange t.tempo (plan.targetTempoRange.1 : ℚ) (plan.targetTempoRange.2 : ℚ))

/-- The ordered anchor partition of `build_recommendation`. -/
def anchorPartition (candidates : List Track) (plan : RecommendationPlan) : List Track :=
  orderTracks plan ((filterSurvivors candidates plan).filter (fun t => t.isAnchor))

/-- The unflagged survivors, in input order. -/
def explorationPool (candidates : List Track) (plan : RecommendationPlan) : List Track :=
  (filterSurvivors candidates plan).filter (fun t => !t.isAnchor)

/-- The exploration partition of `build_recommendation`: truncate the pool in
input order, then order per strategy. -/
def explorationPartition (candidates : List Track) (plan : RecommendationPlan) : List Track :=
  orderTracks plan (selectExplorationTracks (explorationPool candidates plan) plan)

/-- `build_recommendation`. -/
def buildRecommendation (candidates : List Track) (plan : RecommendationPlan) : List Track :=
  match plan.anchorEveryN with
  | some n => injectByEveryN (explorationPartition candidates plan) (anchorPartition candidates plan) n
  | none => injectByRatio (explorationPartition candidates plan) (anchorPartition candidates plan)
      plan.anchorRatio

/-- Modelled from the spec: the spec's §4.8 steps 2-3 order the exploration
pool per `sequencing_strategy` first and then truncate the *ordered* pool to a
prefix of `round(len * exploration_multiplier)` items clamped to `[0, len]`.
Used only to compare the spec's description against the code. -/
def specExplorationPortion (candidates : List Track) (plan : RecommendationPlan) :
    List Track :=
  selectExplorationTracks (orderTracks plan (explorationPool candidates plan)) plan

/-- Spacing invariant on an emitted list: walking with non-anchor run length
`since`, every anchor is reached before the run reaches `n`, except that once
a run of length `n` exists, no anchor may follow it. -/
def gapsOK (anchors : List String) (n : ℕ) : ℕ → List String → Prop
  | _, [] => True
  | since, t :: ts =>
    if t ∈ anchors then gapsOK anchors n 0 ts
    else if since + 1 < n then gapsOK anchors n (since + 1) ts
    else ∀ x ∈ ts, x ∉ anchors

/-! ### Lemmas about the dedup pass -/

lemma mem_dedupFirstAux {x : String} :
    ∀ (seen l : List String), x ∈ dedupFirstAux seen l ↔ x ∈ l ∧ x ∉ seen := by
  intro seen l
  induction l generalizing seen with
  | nil => simp [dedupFirstAux]
  | cons t ts ih =>
    by_cases h : t ∈ seen
    · rw [dedupFirstAux, if_pos h, ih]
      constructor
      · rintro ⟨hx, hns⟩
        exact ⟨List.mem_cons_of_mem _ hx, hns⟩
      · rintro ⟨hx, hns⟩
        rcases List.mem_cons.mp hx with rfl | hx
        · exact absurd h hns
        · exact ⟨hx, hns⟩
    · rw [dedupFirstAux, if_neg h]
      constructor
      · intro hx
        rcases List.mem_cons.mp hx with rfl | hx
        · exact ⟨List.mem_cons_self _ _, h⟩
        · rcases (ih (t :: seen)).mp hx with ⟨hmem, hns⟩
          exact ⟨List.mem_cons_of_mem _ hmem, fun hs => hns (List.mem_cons_of_mem _ hs)⟩
      · rintro ⟨hx, hns⟩
        rcases List.mem_cons.mp hx with rfl | hx
        · exact List.mem_cons_self _ _
        · by_cases hxt : x = t
          · subst hxt; exact List.mem_cons_self _ _
          · exact List.mem_cons_of_mem _ ((ih (t :: seen)).mpr
              ⟨hx, fun hs => (List.mem_cons.mp hs).elim hxt hns⟩)

lemma nodup_dedupFirstAux : ∀ (seen l : List String), (dedupFirstAux seen l).Nodup := by
  intro seen l
  induction l generalizing seen with
  | nil => simp [dedupFirstAux]
  | cons t ts ih =>
    by_cases h : t ∈ seen
    · rw [dedupFirstAux, if_pos h]; exact ih seen
    · rw [dedupFirstAux, if_neg h]
      refine List.nodup_cons.mpr ⟨fun hmem => ?_, ih (t :: seen)⟩
      exact ((mem_dedupFirstAux _ _).mp hmem).2 (List.mem_cons_self _ _)

lemma dedupFirstAux_eq_self :
    ∀ (l seen : List String), l.Nodup → (∀ x ∈ l, x ∉ seen) → dedupFirstAux seen l = l := by
  intro l
  induction l with
  | nil => intro seen _ _; rfl
  | cons t ts ih =>
    intro seen hnd hdisj
    rw [dedupFirstAux, if_neg (hdisj t (List.mem_cons_self _ _))]
    congr 1
    refine ih (t :: seen) (List.nodup_cons.mp hnd).2 fun x hx hmem => ?_
    rcases List.mem_cons.mp hmem with rfl | hmem
    · exact (List.nodup_cons.mp hnd).1 hx
    · exact hdisj x (List.mem_cons_of_mem _ hx) hmem

lemma mem_uniqueCandidates {x : String} {l : List String} :
    x ∈ uniqueCandidates l ↔ x ∈ l := by
  simp [uniqueCandidates, mem_dedupFirstAux]

lemma nodup_uniqueCandidates (l : List String) : (uniqueCandidates l).Nodup :=
  nodup_dedupFirstAux [] l

lemma uniqueCandidates_eq_self {l : List String} (h : l.Nodup) : uniqueCandidates l = l :=
  dedupFirstAux_eq_self l [] h (by simp)

/-! ### Lemmas about the emission loop -/

lemma seqGo_all_non_anchor (anchors : List String) (everyN : ℕ) :
    ∀ (rest emitted : List String) (since : ℕ),
      (∀ c ∈ rest, c ∈ anchors → c ∈ emitted) →
      ∀ x ∈ seqGo anchors everyN rest emitted since, x ∉ anchors := by
  intro rest
  induction rest with
  | nil => intro emitted since _ x hx; simp [seqGo] at hx
  | cons t ts ih =>
    intro emitted since hall x hx
    have hall' : ∀ c ∈ ts, c ∈ anchors → c ∈ emitted :=
      fun c hc => hall c (List.mem_cons_of_mem _ hc)
    by_cases hem : t ∈ emitted
    · rw [seqGo, if_pos hem] at hx
      exact ih emitted since hall' x hx
    · have ht : t ∉ anchors := fun ha => hem (hall t (List.mem_cons_self _ _) ha)
      have hfind : ts.find? (fun c => decide (c ∈ anchors) && decide (c ∉ emitted)) = none := by
        rw [List.find?_eq_none]
        intro c hc
        simp only [Bool.and_eq_true, decide_eq_true_eq, not_and]
        intro hca hcne
        exact absurd (hall' c hc hca) hcne
      by_cases hs : everyN - 1 ≤ since
      · rw [seqGo, if_neg hem, if_pos ⟨ht, hs⟩, hfind] at hx
        rcases List.mem_cons.mp hx with rfl | hx
        · exact ht
        · refine ih (t :: emitted) (since + 1) (fun c hc hca => ?_) x hx
          exact List.mem_cons_of_mem _ (hall' c hc hca)
      · rw [seqGo, if_neg hem, if_neg (fun hc => hs hc.2)] at hx
        rcases List.mem_cons.mp hx with rfl | hx
        · exact ht
        · refine ih (t :: emitted) _ (fun c hc hca => ?_) x hx
          exact List.mem_cons_of_mem _ (hall' c hc hca)

lemma seqGo_gapsOK (anchors : List String) (everyN : ℕ) (hn : 2 ≤ everyN) :
    ∀ (rest emitted : List String) (since : ℕ), since < everyN →
      gapsOK anchors everyN since (seqGo anchors everyN rest emitted since) := by
  intro rest
  induction rest with
  | nil => intro emitted since _; simp [seqGo, gapsOK]
  | cons t ts ih =>
    intro emitted since hlt
    by_cases hem : t ∈ emitted
    · rw [seqGo, if_pos hem]
      exact ih emitted since hlt
    · by_cases ha : t ∈ anchors
      · rw [seqGo, if_neg hem, if_neg (fun hc => hc.1 ha), if_pos ha]
        rw [gapsOK, if_pos ha]
        exact ih (t :: emitted) 0 (by omega)
      · by_cases hs : everyN - 1 ≤ since
        · have hsince : since = everyN - 1 := by omega
          rw [seqGo, if_neg hem, if_pos ⟨ha, hs⟩]
          rcases hfind : ts.find? (fun c => decide (c ∈ anchors) && decide (c ∉ emitted)) with
            _ | a
          · rw [gapsOK, if_neg ha, if_neg (by omega)]
            refine seqGo_all_non_anchor anchors everyN ts (t :: emitted) (since + 1) ?_
            intro c hc hca
            have := List.find?_eq_none.mp hfind c hc
            simp only [Bool.and_eq_true, decide_eq_true_eq, not_and, not_not] at this
            exact List.mem_cons_of_mem _ (this hca)
          · have hpa : a ∈ anchors := by
              have := List.find?_some hfind
              simp only [Bool.and_eq_true, decide_eq_true_eq] at this
              exact this.1
            rw [gapsOK, if_pos hpa, gapsOK, if_neg ha, if_pos (by omega)]
            exact ih (t :: a :: emitted) 1 (by omega)
        · rw [seqGo, if_neg hem, if_neg (fun hc => hs hc.2), if_neg ha]
          rw [gapsOK, if_neg ha, if_pos (by omega)]
          exact ih (t :: emitted) (since + 1) (by omega)

lemma gapsOK_first_anchor (anchors : List String) (n : ℕ) :
    ∀ (l : List String) (since : ℕ), since < n → gapsOK anchors n since l →
      (∃ a ∈ l, a ∈ anchors) → ∃ a ∈ l.take (n - since), a ∈ anchors := by
  intro l
  induction l with
  | nil => simp
  | cons t ts ih =>
    intro since hlt hgap hex
    by_cases ha : t ∈ anchors
    · refine ⟨t, ?_, ha⟩
      have hk : n - since = (n - since - 1) + 1 := by omega
      rw [hk, List.take_succ_cons]
      exact List.mem_cons_self _ _
    · rw [gapsOK, if_neg ha] at hgap
      have hex' : ∃ a ∈ ts, a ∈ anchors := by
        obtain ⟨a, hmem, haa⟩ := hex
        rcases List.mem_cons.mp hmem with rfl | hmem
        · exact absurd haa ha
        · exact ⟨a, hmem, haa⟩
      by_cases h2 : since + 1 < n
      · rw [if_pos h2] at hgap
        obtain ⟨a, hmem, haa⟩ := ih (since + 1) h2 hgap hex'
        refine ⟨a, ?_, haa⟩
        have hk : n - since = (n - (since + 1)) + 1 := by omega
        rw [hk, List.take_succ_cons]
        exact List.mem_cons_of_mem _ hmem
      · rw [if_neg h2] at hgap
        obtain ⟨a, hmem, haa⟩ := hex'
        exact absurd haa (hgap a hmem)

lemma gapsOK_window (anchors : List String) (n : ℕ) (hn : 0 < n) :
    ∀ (l : List String) (since : ℕ), since < n → gapsOK anchors n since l →
      ∀ i : ℕ, (∃ a ∈ l.drop i, a ∈ anchors) →
        ∃ a ∈ (l.drop i).take n, a ∈ anchors := by
  intro l
  induction l with
  | nil => simp
  | cons t ts ih =>
    intro since hlt hgap i hex
    cases i with
    | zero =>
      simp only [List.drop_zero] at hex ⊢
      obtain ⟨a, hmem, haa⟩ := gapsOK_first_anchor anchors n (t :: ts) since hlt hgap hex
      refine ⟨a, ?_, haa⟩
      have : (t :: ts).take (n - since) = ((t :: ts).take n).take (n - since) := by
        rw [List.take_take, min_eq_left (by omega)]
      rw [this] at hmem
      exact List.take_subset _ _ hmem
    | succ i =>
      simp only [List.drop_succ_cons] at hex ⊢
      by_cases ha : t ∈ anchors
      · rw [gapsOK, if_pos ha] at hgap
        exact ih 0 hn hgap i hex
      · rw [gapsOK, if_neg ha] at hgap
        by_cases h2 : since + 1 < n
        · rw [if_pos h2] at hgap
          exact ih (since + 1) h2 hgap i hex
        · rw [if_neg h2] at hgap
          obtain ⟨a, hmem, haa⟩ := hex
          exact absurd haa (hgap a (List.drop_subset _ _ hmem))

lemma seqGo_filter_non_anchor (anchors : List String) (everyN : ℕ) :
    ∀ (rest emitted : List String) (since : ℕ), rest.Nodup →
      (seqGo anchors everyN rest emitted since).filter (fun x => decide (x ∉ anchors))
        = rest.filter (fun x => decide (x ∉ anchors) && decide (x ∉ emitted)) := by
  intro rest
  induction rest with
  | nil => intro emitted since _; simp [seqGo]
  | cons t ts ih =>
    intro emitted since hnd
    obtain ⟨hts, hnd'⟩ := List.nodup_cons.mp hnd
    have hcongr : ∀ (extra : List String), (∀ y ∈ extra, y = t ∨ y ∈ anchors ∨ y ∈ emitted) →
        ts.filter (fun x => decide (x ∉ anchors) && decide (x ∉ extra ++ emitted))
          = ts.filter (fun x => decide (x ∉ anchors) && decide (x ∉ emitted)) := by
      intro extra hextra
      refine List.filter_congr fun x hx => ?_
      by_cases hxa : x ∈ anchors
      · simp [hxa]
      · have hmem : (x ∉ extra ++ emitted) ↔ (x ∉ emitted) := by
          simp only [List.mem_append, not_or]
          constructor
          · exact fun h => h.2
          · intro h
            refine ⟨fun hmemx => ?_, h⟩
            rcases hextra x hmemx with rfl | hxa2 | hxe
            · exact hts hx
            · exact hxa hxa2
            · exact h hxe
        rw [decide_eq_decide.mpr hmem]
    by_cases hem : t ∈ emitted
    · rw [seqGo, if_pos hem, ih emitted since hnd']
      have : (fun x => decide (x ∉ anchors) && decide (x ∉ emitted)) t = false := by
        simp [hem]
      rw [List.filter_cons_of_neg (by simp [hem])]
    · by_cases ha : t ∈ anchors
      · rw [seqGo, if_neg hem, if_neg (fun hc => hc.1 ha), if_pos ha,
          List.filter_cons_of_neg (by simp [ha]), List.filter_cons_of_neg (by simp [ha]),
          ih (t :: emitted) 0 hnd']
        have := hcongr [t] (by simp)
        simpa using this
      · by_cases hs : everyN - 1 ≤ since
        · rw [seqGo, if_neg hem, if_pos ⟨ha, hs⟩]
          rcases hfind : ts.find? (fun c => decide (c ∈ anchors) && decide (c ∉ emitted)) with
            _ | a
          · rw [List.filter_cons_of_pos (by simp [ha]),
              List.filter_cons_of_pos (by simp [ha, hem]), ih (t :: emitted) _ hnd']
            have := hcongr [t] (by simp)
            simpa using this
          · have hpa : a ∈ anchors := by
              have := List.find?_some hfind
              simp only [Bool.and_eq_true, decide_eq_true_eq] at this
              exact this.1
            rw [List.filter_cons_of_neg (by simp [hpa]),
              List.filter_cons_of_pos (by simp [ha]),
              List.filter_cons_of_pos (by simp [ha, hem]), ih (t :: a :: emitted) _ hnd']
            have := hcongr [t, a] (by simp [hpa])
            simpa using this
        · rw [seqGo, if_neg hem, if_neg (fun hc => hs hc.2), if_neg ha,
            List.filter_cons_of_pos (by simp [ha]),
            List.filter_cons_of_pos (by simp [ha, hem]), ih (t :: emitted) _ hnd']
          have := hcongr [t] (by simp)
          simpa using this

lemma seqGo_perm (anchors : List String) (everyN : ℕ) :
    ∀ (rest emitted : List String) (since : ℕ), rest.Nodup →
      (seqGo anchors everyN rest emitted since).Perm
        (rest.filter (fun x => decide (x ∉ emitted))) := by
  intro rest
  induction rest with
  | nil => intro emitted since _; simp [seqGo]
  | cons t ts ih =>
    intro emitted since hnd
    obtain ⟨hts, hnd'⟩ := List.nodup_cons.mp hnd
    by_cases hem : t ∈ emitted
    · rw [seqGo, if_pos hem, List.filter_cons_of_neg (by simp [hem])]
      exact ih emitted since hnd'
    · rw [List.filter_cons_of_pos (by simp [hem])]
      have hsingle : ts.filter (fun x => decide (x ∉ t :: emitted))
          = ts.filter (fun x => decide (x ∉ emitted)) := by
        refine List.filter_congr fun x hx => ?_
        refine decide_eq_decide.mpr ?_
        simp only [List.mem_cons, not_or]
        exact ⟨fun h => h.2, fun h => ⟨fun hxt => hts (hxt ▸ hx), h⟩⟩
      by_cases ha : t ∈ anchors
      · rw [seqGo, if_neg hem, if_neg (fun hc => hc.1 ha), if_pos ha]
        exact ((ih (t :: emitted) 0 hnd').trans (hsingle ▸ List.Perm.refl _)).cons t
      · by_cases hs : everyN - 1 ≤ since
        · rw [seqGo, if_neg hem, if_pos ⟨ha, hs⟩]
          rcases hfind : ts.find? (fun c => decide (c ∈ anchors) && decide (c ∉ emitted)) with
            _ | a
          · exact ((ih (t :: emitted) _ hnd').trans (hsingle ▸ List.Perm.refl _)).cons t
          · have hp := List.find?_some hfind
            simp only [Bool.and_eq_true, decide_eq_true_eq] at hp
            have hamem : a ∈ ts := List.mem_of_find?_eq_some hfind
            have hat : a ≠ t := fun h => hts (h ▸ hamem)
            have hdouble : ts.filter (fun x => decide (x ∉ t :: a :: emitted))
                = (ts.filter (fun x => decide (x ∉ emitted))).filter (fun x => x != a) := by
              rw [List.filter_filter]
              refine List.filter_congr fun x hx => ?_
              have hxt : x ≠ t := fun h => hts (h ▸ hx)
              by_cases hxa : x = a
              · subst hxa
                simp [List.mem_cons]
              · have hiff : (x ∉ t :: a :: emitted) ↔ (x ∉ emitted) := by
                  simp [List.mem_cons, hxt, hxa]
                have hdec : decide (x ∉ t :: a :: emitted) = decide (x ∉ emitted) :=
                  decide_eq_decide.mpr hiff
                rw [hdec]
                simp [hxa]
            have hF : (ts.filter (fun x => decide (x ∉ emitted))).Nodup :=
              hnd'.filter _
            have haF : a ∈ ts.filter (fun x => decide (x ∉ emitted)) := by
              simp only [List.mem_filter, decide_eq_true_eq]
              exact ⟨hamem, hp.2⟩
            have hperm1 : (ts.filter (fun x => decide (x ∉ emitted))).Perm
                (a :: (ts.filter (fun x => decide (x ∉ emitted))).filter (fun x => x != a)) := by
              have herase := List.perm_cons_erase haF
              rwa [hF.erase_eq_filter] at herase
            refine List.Perm.trans ?_ ((hperm1.cons t).trans (List.Perm.swap a t _)).symm
            refine List.Perm.cons a (List.Perm.cons t ?_)
            exact (ih (t :: a :: emitted) 1 hnd').trans (hdouble ▸ List.Perm.refl _)
        · rw [seqGo, if_neg hem, if_neg (fun hc => hs hc.2), if_neg ha]
          exact ((ih (t :: emitted) _ hnd').trans (hsingle ▸ List.Perm.refl _)).cons t

/-! ## Claim theorems -/

/-- C1 counterexample: with `anchor_every_n = 1` (the CRITICO budget) the
claimed window guarantee fails as stated: for candidates `[n1, a1, a2]` and
anchors `{a1, a2}` the output is `[a1, n1, a2]`; the length-1 window at
position 1 is `[n1]`, which contains no anchor even though the not-yet-emitted
anchor `a2` still remains in the rest of the sequence. -/
theorem apply_novelty_budget_spacing_counterexample :
    applyNoveltyBudget ["n1", "a1", "a2"] ["a1", "a2"] ⟨0.1, 0.9, some 1⟩
        = ["a1", "n1", "a2"]
    ∧ (∃ a ∈ (applyNoveltyBudget ["n1", "a1", "a2"] ["a1", "a2"] ⟨0.1, 0.9, some 1⟩).drop 1,
        a ∈ ["a1", "a2"])
    ∧ ¬ (∃ a ∈ ((applyNoveltyBudget ["n1", "a1", "a2"] ["a1", "a2"] ⟨0.1, 0.9, some 1⟩).drop 1).take
          (max 1 (1 : ℤ)).toNat, a ∈ ["a1", "a2"]) := by
  refine ⟨by decide, by decide, by decide⟩

/-- C1 (amended): `apply_novelty_budget` never reorders the non-anchor items
(their subsequence is exactly the non-anchor subsequence of the deduplicated
input), and for every budget with `anchor_every_n = m ≥ 2` every window of
`m` consecutive output items contains an anchor as long as a not-yet-emitted
anchor remains in the rest of the output; for `anchor_every_n = 1` the window
guarantee fails (see the counterexample). -/
theorem apply_novelty_budget_spacing (cands anchors : List String) (b : NoveltyBudget)
    (m : ℤ) (hb : b.anchorEveryN = some m) (hm : 2 ≤ m) :
    (applyNoveltyBudget cands anchors b).filter (fun x => decide (x ∉ anchors))
        = (uniqueCandidates cands).filter (fun x => decide (x ∉ anchors))
    ∧ ∀ i : ℕ, (∃ a ∈ (applyNoveltyBudget cands anchors b).drop i, a ∈ anchors) →
        ∃ a ∈ ((applyNoveltyBudget cands anchors b).drop i).take m.toNat, a ∈ anchors := by
  have hN : (max 1 m).toNat = m.toNat := by omega
  have hN2 : 2 ≤ (max 1 m).toNat := by omega
  by_cases hucE : (uniqueCandidates cands).isEmpty
  · have huc : uniqueCandidates cands = [] := List.isEmpty_iff.mp hucE
    rw [applyNoveltyBudget, if_pos hucE, huc]
    exact ⟨rfl, by simp⟩
  · by_cases hanchE : anchors.isEmpty
    · have hanch : anchors = [] := List.isEmpty_iff.mp hanchE
      rw [applyNoveltyBudget, if_neg hucE, if_pos hanchE]
      refine ⟨rfl, ?_⟩
      rintro i ⟨a, _, hmem⟩
      rw [hanch] at hmem
      exact absurd hmem (List.not_mem_nil a)
    · rw [applyNoveltyBudget, if_neg hucE, if_neg hanchE, hb]
      constructor
      · rw [seqGo_filter_non_anchor anchors _ _ [] 0 (nodup_uniqueCandidates cands)]
        refine List.filter_congr fun x _ => ?_
        simp
      · intro i hex
        rw [← hN]
        refine gapsOK_window anchors (max 1 m).toNat (by omega) _ 0 (by omega) ?_ i hex
        exact seqGo_gapsOK anchors (max 1 m).toNat hN2 (uniqueCandidates cands) [] 0 (by omega)

/-- C1 witness: the spec's concrete example (`anchor_every_n = 3`) — the
window guarantee at position 0, plus the full sliding-window scan of the
output. -/
theorem apply_novelty_budget_spacing_witness :
    (∃ a ∈ ((applyNoveltyBudget ["n1", "n2", "a1", "n3", "n4", "a2", "n5"] ["a1", "a2"]
        ⟨0.2, 0.8, some 3⟩).drop 0).take (3 : ℤ).toNat, a ∈ ["a1", "a2"])
    ∧ ((List.range 5).all fun i =>
        ((applyNoveltyBudget ["n1", "n2", "a1", "n3", "n4", "a2", "n5"] ["a1", "a2"]
          ⟨0.2, 0.8, some 3⟩).drop i).take 3 |>.any (fun a => decide (a ∈ ["a1", "a2"]))) := by
  constructor
  · exact (apply_novelty_budget_spacing ["n1", "n2", "a1", "n3", "n4", "a2", "n5"]
      ["a1", "a2"] ⟨0.2, 0.8, some 3⟩ 3 rfl (by decide)).2 0 (by decide)
  · decide

/-- C2 counterexample: the five-event walk `[complete, skip, early-skip,
early-skip, complete]` on a fresh machine with window 5 does not end in
NEUTRO: after the fifth event the window `[F, F, T, T, F]` still holds two
early skips, so the fifth state is CRITICO. -/
theorem session_walk_counterexample :
    runStates (freshMachine 5) [completeEv, skipEv, earlySkipEv, earlySkipEv, completeEv]
      ≠ some [.NEUTRO, .NEUTRO, .FRAGIL, .CRITICO, .NEUTRO] := by decide

/-- C2 (amended): the walk `[complete, skip, early-skip, early-skip,
complete]` on a fresh machine with window 5 yields snapshot states
`[NEUTRO, NEUTRO, FRAGIL, CRITICO, CRITICO]`, each snapshot state resolved by
the strict priority order of `_resolve_state`. -/
theorem session_walk_exact :
    runStates (freshMachine 5) [completeEv, skipEv, earlySkipEv, earlySkipEv, completeEv]
      = some [.NEUTRO, .NEUTRO, .FRAGIL, .CRITICO, .CRITICO] := by decide

/-- C6: the output of `apply_novelty_budget` contains each distinct input id
exactly once (it is duplicate-free and has exactly the input's ids); when the
anchor set is empty or `anchor_every_n` is None the output is exactly the
first-seen-order dedup of the input, which is the identity on duplicate-free
lists. -/
theorem apply_novelty_budget_dedup (cands anchors : List String) (b : NoveltyBudget) :
    ((applyNoveltyBudget cands anchors b).Nodup
      ∧ ∀ x, x ∈ applyNoveltyBudget cands anchors b ↔ x ∈ cands)
    ∧ (anchors = [] ∨ b.anchorEveryN = none →
        applyNoveltyBudget cands anchors b = uniqueCandidates cands)
    ∧ (cands.Nodup → uniqueCandidates cands = cands) := by
  have key : (applyNoveltyBudget cands anchors b).Perm (uniqueCandidates cands) := by
    by_cases hucE : (uniqueCandidates cands).isEmpty
    · rw [applyNoveltyBudget, if_pos hucE, List.isEmpty_iff.mp hucE]
    · by_cases hanchE : anchors.isEmpty
      · rw [applyNoveltyBudget, if_neg hucE, if_pos hanchE]
      · rw [applyNoveltyBudget, if_neg hucE, if_neg hanchE]
        rcases hn : b.anchorEveryN with _ | n
        · exact List.Perm.refl _
        · refine (seqGo_perm anchors (max 1 n).toNat (uniqueCandidates cands) [] 0
            (nodup_uniqueCandidates cands)).trans ?_
          have : (uniqueCandidates cands).filter (fun x => decide (x ∉ ([] : List String)))
              = uniqueCandidates cands := by
            refine List.filter_eq_self.mpr fun x _ => by simp
          rw [this]
  refine ⟨⟨(key.nodup_iff).mpr (nodup_uniqueCandidates cands),
    fun x => (key.mem_iff).trans mem_uniqueCandidates⟩, ?_, fun h => uniqueCandidates_eq_self h⟩
  rintro (hanch | hnone)
  · subst hanch
    by_cases hucE : (uniqueCandidates cands).isEmpty
    · rw [applyNoveltyBudget, if_pos hucE, List.isEmpty_iff.mp hucE]
    · rw [applyNoveltyBudget, if_neg hucE]
      simp
  · by_cases hucE : (uniqueCandidates cands).isEmpty
    · rw [applyNoveltyBudget, if_pos hucE, List.isEmpty_iff.mp hucE]
    · by_cases hanchE : anchors.isEmpty
      · rw [applyNoveltyBudget, if_neg hucE, if_pos hanchE]
      · rw [applyNoveltyBudget, if_neg hucE, if_neg hanchE, hnone]

/-- C6 witness: `["a","a","b","a"]` with no anchors dedups to `["a","b"]`,
and an already duplicate-free list is returned unchanged for an anchored
budget with an empty anchor set. -/
theorem apply_novelty_budget_dedup_witness :
    applyNoveltyBudget ["a", "a", "b", "a"] [] ⟨0.4, 0.6, none⟩ = ["a", "b"]
    ∧ applyNoveltyBudget ["n1", "n2", "n3"] [] ⟨0.6, 0.4, some 4⟩ = ["n1", "n2", "n3"] := by
  constructor
  · rw [(apply_novelty_budget_dedup ["a", "a", "b", "a"] [] ⟨0.4, 0.6, none⟩).2.1 (Or.inl rfl)]
    decide
  · rw [(apply_novelty_budget_dedup ["n1", "n2", "n3"] [] ⟨0.6, 0.4, some 4⟩).2.1 (Or.inl rfl),
      (apply_novelty_budget_dedup ["n1", "n2", "n3"] [] ⟨0.6, 0.4, some 4⟩).2.2 (by decide)]

/-- C3: for every time block string and every session state,
`compute_novelty_budget` returns exploration
`round(clamp(base + adjustment, 0, 0.8), 2)` with the claimed base table and
diurnal adjustment (unrecognized blocks adjust by 0 and never raise),
`anchor_ratio = round(1 - exploration, 2)`, the claimed `anchor_every_n`
table, and accepts the state as enum or string value; in particular
`(EVENING, FRAGIL) = (0.2, 0.8, 2)`, `(MORNING, NEUTRO)` has exploration
0.45 and `(LATE_NIGHT, CRITICO)` has exploration 0.05. -/
theorem compute_novelty_budget_table :
    (∀ (tb : String) (st : SessionState),
      (computeNoveltyBudget tb st).exploration
          = round2 (minQ 0.8 (maxQ 0
              ((match st with
                | .CALIENTE => (0.6 : ℚ)
                | .NEUTRO => 0.4
                | .FRAGIL => 0.2
                | .CRITICO => 0.1)
               + (if tb = "MORNING" ∨ tb = "AFTERNOON" then (0.05 : ℚ)
                  else if tb = "NIGHT" ∨ tb = "LATE_NIGHT" then -0.05 else 0))))
      ∧ (computeNoveltyBudget tb st).anchorRatio
          = round2 (1 - (computeNoveltyBudget tb st).exploration)
      ∧ (computeNoveltyBudget tb st).anchorEveryN
          = (match st with | .FRAGIL => some 2 | .CRITICO => some 1 | _ => none)
      ∧ computeNoveltyBudgetStr tb st.value = some (computeNoveltyBudget tb st))
    ∧ computeNoveltyBudget "EVENING" .FRAGIL = ⟨0.2, 0.8, some 2⟩
    ∧ (computeNoveltyBudget "MORNING" .NEUTRO).exploration = 0.45
    ∧ (computeNoveltyBudget "LATE_NIGHT" .CRITICO).exploration = 0.05 := by
  refine ⟨fun tb st => ⟨?_, rfl, ?_, ?_⟩, ?_, ?_, ?_⟩
  · cases st <;> rw [computeNoveltyBudget] <;> split_ifs <;> norm_num
  · cases st <;> rfl
  · cases st <;> rfl
  · simp [computeNoveltyBudget, round2, pythonRound, minQ, maxQ]
    norm_num
  · simp [computeNoveltyBudget, round2, pythonRound, minQ, maxQ]
    norm_num
  · simp [computeNoveltyBudget, round2, pythonRound, minQ, maxQ]
    norm_num

/-- Closed form of the weekday schedule lookup. -/
lemma getTimeBlock_weekday (mm : ℕ) :
    getTimeBlock false mm =
      if mm ≤ 119 then some "NIGHT"
      else if mm ≤ 359 then some "LATE_NIGHT"
      else if mm ≤ 719 then some "MORNING"
      else if mm ≤ 1019 then some "AFTERNOON"
      else if mm ≤ 1259 then some "EVENING"
      else if mm ≤ 1439 then some "NIGHT"
      else none := by
  by_cases h1 : mm ≤ 119
  · simp [getTimeBlock, WEEKDAY_SCHEDULE, List.find?_cons, h1, Nat.zero_le]
  · by_cases h2 : mm ≤ 359
    · simp [getTimeBlock, WEEKDAY_SCHEDULE, List.find?_cons, h1, h2,
        (show 120 ≤ mm by omega)]
    · by_cases h3 : mm ≤ 719
      · simp [getTimeBlock, WEEKDAY_SCHEDULE, List.find?_cons, h1, h2, h3,
          (show 360 ≤ mm by omega)]
      · by_cases h4 : mm ≤ 1019
        · simp [getTimeBlock, WEEKDAY_SCHEDULE, List.find?_cons, h1, h2, h3, h4,
            (show 720 ≤ mm by omega)]
        · by_cases h5 : mm ≤ 1259
          · simp [getTimeBlock, WEEKDAY_SCHEDULE, List.find?_cons, h1, h2, h3, h4, h5,
              (show 1020 ≤ mm by omega)]
          · by_cases h6 : mm ≤ 1439
            · simp [getTimeBlock, WEEKDAY_SCHEDULE, List.find?_cons, h1, h2, h3, h4, h5, h6,
                (show 1260 ≤ mm by omega)]
            · simp [getTimeBlock, WEEKDAY_SCHEDULE, List.find?_cons, h1, h2, h3, h4, h5, h6]

lemma getTimeBlock_weekend (mm : ℕ) :
    getTimeBlock true mm =
      if mm ≤ 179 then some "NIGHT"
      else if mm ≤ 419 then some "LATE_NIGHT"
      else if mm ≤ 779 then some "MORNING"
      else if mm ≤ 1079 then some "AFTERNOON"
      else if mm ≤ 1319 then some "EVENING"
      else if mm ≤ 1439 then some "NIGHT"
      else none := by
  by_cases h1 : mm ≤ 179
  · simp [getTimeBlock, WEEKEND_SCHEDULE, List.find?_cons, h1, Nat.zero_le]
  · by_cases h2 : mm ≤ 419
    · simp [getTimeBlock, WEEKEND_SCHEDULE, List.find?_cons, h1, h2,
        (show 180 ≤ mm by omega)]
    · by_cases h3 : mm ≤ 779
      · simp [getTimeBlock, WEEKEND_SCHEDULE, List.find?_cons, h1, h2, h3,
          (show 420 ≤ mm by omega)]
      · by_cases h4 : mm ≤ 1079
        · simp [getTimeBlock, WEEKEND_SCHEDULE, List.find?_cons, h1, h2, h3, h4,
            (show 780 ≤ mm by omega)]
        · by_cases h5 : mm ≤ 1319
          · simp [getTimeBlock, WEEKEND_SCHEDULE, List.find?_cons, h1, h2, h3, h4, h5,
              (show 1080 ≤ mm by omega)]
          · by_cases h6 : mm ≤ 1439
            · simp [getTimeBlock, WEEKEND_SCHEDULE, List.find?_cons, h1, h2, h3, h4, h5, h6,
                (show 1320 ≤ mm by omega)]
            · simp [getTimeBlock, WEEKEND_SCHEDULE, List.find?_cons, h1, h2, h3, h4, h5, h6]

/-- C7: for every minute of the day on both schedules `get_time_block`
returns one of the five blocks (the internal-invariant error branch is
unreachable); the claimed weekday and weekend boundary values hold. -/
theorem get_time_block_total (weekend : Bool) (m : ℕ) (hm : m < 1440) :
    (∃ b ∈ TIME_BLOCKS, getTimeBlock weekend m = some b)
    ∧ getTimeBlock false 359 = some "LATE_NIGHT"
    ∧ getTimeBlock false 360 = some "MORNING"
    ∧ getTimeBlock true 390 = some "LATE_NIGHT"
    ∧ getTimeBlock true 420 = some "MORNING" := by
  refine ⟨?_, ?_, ?_, ?_, ?_⟩
  · cases weekend
    · rw [getTimeBlock_weekday]
      split_ifs <;> first | exact ⟨_, by decide, rfl⟩ | omega
    · rw [getTimeBlock_weekend]
      split_ifs <;> first | exact ⟨_, by decide, rfl⟩ | omega
  · rw [getTimeBlock_weekday]; norm_num
  · rw [getTimeBlock_weekday]; norm_num
  · rw [getTimeBlock_weekend]; norm_num
  · rw [getTimeBlock_weekend]; norm_num

/-- C7 witness: both schedules at concrete minutes, via the theorem. -/
theorem get_time_block_total_witness :
    (∃ b ∈ TIME_BLOCKS, getTimeBlock false 0 = some b)
    ∧ (∃ b ∈ TIME_BLOCKS, getTimeBlock true 1439 = some b) :=
  ⟨(get_time_block_total false 0 (by decide)).1,
   (get_time_block_total true 1439 (by decide)).1⟩

/-! ### Lemmas about the behavior hook -/

lemma lookup_map_mul (mult : ℚ) :
    ∀ (l : List (String × ℚ)) (k : String),
      (l.map (fun p => (p.1, p.2 * mult))).lookup k = (l.lookup k).map (· * mult) := by
  intro l k
  induction l with
  | nil => rfl
  | cons p ps ih =>
    by_cases h : k = p.1
    · simp [List.lookup, h]
    · simp [List.lookup, h, ih, beq_false_of_ne h]

lemma lookup_boostOne (trackId k : String) (l : List (String × ℚ)) :
    (boostOne trackId l).lookup k
      = if k = trackId then (l.lookup k).map (· + ANCHOR_BOOST) else l.lookup k := by
  induction l with
  | nil => simp [boostOne, List.lookup]
  | cons p ps ih =>
    rcases p with ⟨pk, pv⟩
    have hcons : boostOne trackId ((pk, pv) :: ps)
        = (if pk = trackId then (pk, pv + ANCHOR_BOOST) else (pk, pv)) :: boostOne trackId ps :=
      rfl
    rw [hcons]
    by_cases hp : pk = trackId
    · rw [if_pos hp]
      by_cases hk : k = pk
      · subst hk
        subst hp
        rw [if_pos rfl, List.lookup, List.lookup, beq_self_eq_true]
        rfl
      · rw [List.lookup, List.lookup, beq_false_of_ne hk]
        dsimp only
        exact ih
    · rw [if_neg hp]
      by_cases hk : k = pk
      · subst hk
        have hkt : ¬ (k = trackId) := hp
        rw [List.lookup, List.lookup, beq_self_eq_true, if_neg hkt]
      · rw [List.lookup, List.lookup, beq_false_of_ne hk]
        dsimp only
        exact ih

lemma lookup_boostFold :
    ∀ (ids : List String), ids.Nodup → ∀ (l : List (String × ℚ)) (k : String),
      ((ids.foldl (fun sc t => boostOne t sc) l).lookup k)
        = if k ∈ ids then (l.lookup k).map (· + ANCHOR_BOOST) else l.lookup k := by
  intro ids
  induction ids with
  | nil => intro _ l k; simp
  | cons i rest ih =>
    intro hnd l k
    obtain ⟨hni, hnd'⟩ := List.nodup_cons.mp hnd
    rw [List.foldl_cons, ih hnd' (boostOne i l) k]
    by_cases hk : k = i
    · subst hk
      rw [if_neg hni, lookup_boostOne, if_pos rfl, if_pos (List.mem_cons_self _ _)]
    · rw [lookup_boostOne, if_neg hk]
      by_cases hmem : k ∈ rest
      · rw [if_pos hmem, if_pos (List.mem_cons_of_mem _ hmem)]
      · rw [if_neg hmem, if_neg (by simp [hk, hmem])]

/-- C5 counterexample: the claim omits the `should_inject_anchor` gate.  With
the NEUTRO interventions (`should_inject_anchor = False`), base scores
`{"x": 1.0}` and anchors `["x"]`, the returned score of `"x"` is `0.8`
(multiplier only), not the claimed `1.0 * 0.8 + 1.0`. -/
theorem apply_session_interventions_counterexample :
    (applySessionInterventions [("x", 1)] (resolveInterventions .NEUTRO)
        (some ["x"])).scores.lookup "x" = some 0.8
    ∧ (0.8 : ℚ) ≠ 1 * 0.8 + 1 := by
  constructor
  · simp [applySessionInterventions, resolveInterventions, List.lookup]
  · norm_num

/-- C5 (amended): with a non-empty anchor id list, every id of `base_scores`
is mapped to its base score times the exploration multiplier, plus the fixed
`1.0` boost exactly when `should_inject_anchor` is set and the id occurs in
the anchor list; ids absent from `base_scores` stay absent, and
`should_suggest_reset` passes through unchanged. -/
theorem apply_session_interventions_scores (base : List (String × ℚ))
    (iv : SessionInterventions) (anchorIds : List String) (hne : anchorIds ≠ []) :
    (∀ k v, base.lookup k = some v →
      (applySessionInterventions base iv (some anchorIds)).scores.lookup k
        = some (v * iv.explorationMultiplier
            + if iv.shouldInjectAnchor ∧ k ∈ anchorIds then ANCHOR_BOOST else 0))
    ∧ (∀ k, base.lookup k = none →
        (applySessionInterventions base iv (some anchorIds)).scores.lookup k = none)
    ∧ (applySessionInterventions base iv (some anchorIds)).shouldSuggestReset
        = iv.shouldSuggestReset := by
  have hE : anchorIds.isEmpty = false := by
    cases anchorIds with
    | nil => exact absurd rfl hne
    | cons a as2 => rfl
  refine ⟨?_, ?_, rfl⟩
  · intro k v hkv
    rcases hIA : iv.shouldInjectAnchor with _ | _
    · have : (applySessionInterventions base iv (some anchorIds)).scores
          = base.map (fun p => (p.1, p.2 * iv.explorationMultiplier)) := by
        simp [applySessionInterventions, hIA]
      rw [this, lookup_map_mul, hkv]
      simp [hIA]
    · have : (applySessionInterventions base iv (some anchorIds)).scores
          = (dedupFirstAux [] anchorIds).foldl (fun sc t => boostOne t sc)
              (base.map (fun p => (p.1, p.2 * iv.explorationMultiplier))) := by
        simp [applySessionInterventions, hIA, hE]
      rw [this, lookup_boostFold (dedupFirstAux [] anchorIds) (nodup_dedupFirstAux [] anchorIds),
        lookup_map_mul, hkv]
      by_cases hmem : k ∈ anchorIds
      · rw [if_pos (by rw [mem_dedupFirstAux]; exact ⟨hmem, by simp⟩)]
        simp [hIA, hmem]
      · rw [if_neg (fun hc => hmem ((mem_dedupFirstAux _ _).mp hc).1)]
        simp [hIA, hmem]
  · intro k hk
    rcases hIA : iv.shouldInjectAnchor with _ | _
    · have : (applySessionInterventions base iv (some anchorIds)).scores
          = base.map (fun p => (p.1, p.2 * iv.explorationMultiplier)) := by
        simp [applySessionInterventions, hIA]
      rw [this, lookup_map_mul, hk]
      rfl
    · have : (applySessionInterventions base iv (some anchorIds)).scores
          = (dedupFirstAux [] anchorIds).foldl (fun sc t => boostOne t sc)
              (base.map (fun p => (p.1, p.2 * iv.explorationMultiplier))) := by
        simp [applySessionInterventions, hIA, hE]
      rw [this, lookup_boostFold (dedupFirstAux [] anchorIds) (nodup_dedupFirstAux [] anchorIds),
        lookup_map_mul, hk]
      split_ifs <;> rfl

/-- C5 witness: a boosted present id, an absent anchor id that stays absent,
and the reset passthrough, at a concrete input. -/
theorem apply_session_interventions_scores_witness :
    (applySessionInterventions [("x", 2)] ⟨0.5, true, true⟩
        (some ["x", "y"])).scores.lookup "x" = some 2
    ∧ (applySessionInterventions [("x", 2)] ⟨0.5, true, true⟩
        (some ["x", "y"])).scores.lookup "y" = none
    ∧ (applySessionInterventions [("x", 2)] ⟨0.5, true, true⟩
        (some ["x", "y"])).shouldSuggestReset = true := by
  obtain ⟨h1, h2, h3⟩ :=
    apply_session_interventions_scores [("x", 2)] ⟨0.5, true, true⟩ ["x", "y"] (by simp)
  refine ⟨?_, h2 "y" rfl, h3⟩
  rw [h1 "x" 2 rfl]
  norm_num [ANCHOR_BOOST]

/-- C10 counterexample: with a negative window size the eviction loop pops an
empty deque: `SessionStateMachine(early_skip_window_size=-1).apply(event)`
raises `IndexError` — it does not return a snapshot. -/
theorem session_machine_negative_window_counterexample :
    (freshMachine (-1)).apply completeEv = none := by decide

lemma resolveState_critical_of_no_early (sk cm : ℕ) :
    resolveState sk 0 cm = .CRITICO → 4 ≤ sk := by
  intro h
  rw [resolveState] at h
  by_cases h1 : 4 ≤ sk ∨ 2 ≤ (0 : ℕ)
  · rcases h1 with h1 | h1
    · exact h1
    · omega
  · rw [if_neg h1] at h
    split_ifs at h

lemma snapshot_of_empty_window (mm : SessionStateMachine)
    (hwm : mm.earlySkipRecentWindow = []) :
    mm.snapshot.earlySkipRecent = 0
      ∧ (mm.snapshot.state = .CRITICO → 4 ≤ mm.snapshot.skipRunLen) := by
  rw [SessionStateMachine.snapshot, hwm]
  exact ⟨rfl, resolveState_critical_of_no_early _ _⟩

lemma apply_zero_window (m : SessionStateMachine) (hsz : m.earlySkipWindowSize = 0)
    (hw : m.earlySkipRecentWindow = []) (e : SessionEvent) :
    ∃ snap m2, m.apply e = some (snap, m2)
      ∧ m2.earlySkipWindowSize = 0 ∧ m2.earlySkipRecentWindow = []
      ∧ snap.earlySkipRecent = 0 ∧ (snap.state = .CRITICO → 4 ≤ snap.skipRunLen) := by
  have htrim : ∀ b : Bool, trimWindow (m.earlySkipRecentWindow ++ [b]) m.earlySkipWindowSize
      = some [] := by
    intro b
    rw [hw, hsz]
    rfl
  by_cases hes : e.early_skip = true
  · rw [SessionStateMachine.apply, if_pos hes]
    dsimp only
    rw [htrim]
    exact ⟨_, _, rfl, hsz, rfl, (snapshot_of_empty_window _ rfl).1,
      (snapshot_of_empty_window _ rfl).2⟩
  · by_cases hsk : e.skipped = true
    · rw [SessionStateMachine.apply, if_neg hes, if_pos hsk]
      dsimp only
      rw [htrim]
      exact ⟨_, _, rfl, hsz, rfl, (snapshot_of_empty_window _ rfl).1,
        (snapshot_of_empty_window _ rfl).2⟩
    · rw [SessionStateMachine.apply, if_neg hes, if_neg hsk]
      dsimp only
      rw [htrim]
      exact ⟨_, _, rfl, hsz, rfl, (snapshot_of_empty_window _ rfl).1,
        (snapshot_of_empty_window _ rfl).2⟩

/-- C10 (amended): for a machine whose window size is exactly 0 (and whose
window is empty, as at construction), `apply` never raises, every window stays
empty so every snapshot has `early_skip_recent = 0`, and CRITICO is reachable
only through `skip_run_len >= 4`.  For negative sizes `apply` raises (see the
counterexample). -/
theorem session_machine_zero_window (m : SessionStateMachine)
    (hsz : m.earlySkipWindowSize = 0) (hw : m.earlySkipRecentWindow = [])
    (events : List SessionEvent) :
    ∃ snaps, runSnapshots m events = some snaps
      ∧ ∀ s ∈ snaps, s.earlySkipRecent = 0 ∧ (s.state = .CRITICO → 4 ≤ s.skipRunLen) := by
  induction events generalizing m with
  | nil => exact ⟨[], rfl, by simp⟩
  | cons e es ih =>
    obtain ⟨snap, m2, he2, h0, hwin, hr0, hcrit⟩ := apply_zero_window m hsz hw e
    obtain ⟨snaps, hrun, hprop⟩ := ih m2 h0 hwin
    refine ⟨snap :: snaps, ?_, ?_⟩
    · rw [runSnapshots, he2]
      dsimp only
      rw [hrun]
      rfl
    · intro s hsmem
      rcases List.mem_cons.mp hsmem with rfl | hsmem
      · exact ⟨hr0, hcrit⟩
      · exact hprop s hsmem

/-- C10 witness: the zero-window machine applied to two early-skip events. -/
theorem session_machine_zero_window_witness :
    ∃ snaps, runSnapshots (freshMachine 0) [earlySkipEv, earlySkipEv] = some snaps
      ∧ ∀ s ∈ snaps, s.earlySkipRecent = 0 ∧ (s.state = .CRITICO → 4 ≤ s.skipRunLen) :=
  session_machine_zero_window (freshMachine 0) rfl rfl [earlySkipEv, earlySkipEv]

/-! ### Lemmas about the recommendation pipeline -/

lemma insertStrictBy_perm (lt : Track → Track → Bool) (x : Track) :
    ∀ l : List Track, (insertStrictBy lt x l).Perm (x :: l) := by
  intro l
  induction l with
  | nil => exact List.Perm.refl _
  | cons y ys ih =>
    rw [insertStrictBy]
    by_cases h : lt x y = true
    · rw [if_pos h]
    · rw [if_neg h]
      exact (ih.cons y).trans (List.Perm.swap x y ys)

lemma foldl_insert_perm (lt : Track → Track → Bool) :
    ∀ (l acc : List Track),
      (l.foldl (fun a x => insertStrictBy lt x a) acc).Perm (acc ++ l) := by
  intro l
  induction l with
  | nil => intro acc; simp
  | cons x xs ih =>
    intro acc
    rw [List.foldl_cons]
    refine (ih (insertStrictBy lt x acc)).trans ?_
    refine ((insertStrictBy_perm lt x acc).append_right xs).trans ?_
    exact (List.perm_middle (a := x)).symm

lemma stableSortBy_perm (lt : Track → Track → Bool) (l : List Track) :
    (stableSortBy lt l).Perm l := by
  simpa using foldl_insert_perm lt l []

lemma orderTracks_perm (plan : RecommendationPlan) (l : List Track) :
    (orderTracks plan l).Perm l := by
  rw [orderTracks]
  split_ifs <;> first | exact stableSortBy_perm _ _ | exact List.Perm.refl _

lemma selectExplorationTracks_subset (pool : List Track) (plan : RecommendationPlan) :
    ∀ t ∈ selectExplorationTracks pool plan, t ∈ pool := by
  intro t ht
  rw [selectExplorationTracks] at ht
  by_cases hE : pool.isEmpty
  · rw [if_pos hE] at ht
    exact absurd ht (List.not_mem_nil t)
  · rw [if_neg hE] at ht
    exact List.take_subset _ _ ht

lemma mem_explorationPartition_non_anchor (cands : List Track) (plan : RecommendationPlan) :
    ∀ t ∈ explorationPartition cands plan, t.isAnchor = false := by
  intro t ht
  have h1 : t ∈ selectExplorationTracks (explorationPool cands plan) plan :=
    (orderTracks_perm plan _).mem_iff.mp ht
  have h2 : t ∈ explorationPool cands plan :=
    selectExplorationTracks_subset _ plan t h1
  have := List.of_mem_filter h2
  simpa using this

lemma mem_anchorPartition_anchor (cands : List Track) (plan : RecommendationPlan) :
    ∀ t ∈ anchorPartition cands plan, t.isAnchor = true := by
  intro t ht
  have h1 : t ∈ (filterSurvivors cands plan).filter (fun t => t.isAnchor) :=
    (orderTracks_perm plan _).mem_iff.mp ht
  exact List.of_mem_filter h1

lemma filter_injectEveryNGo (everyN : ℤ) :
    ∀ (expl ancs : List Track) (count : ℤ),
      (∀ t ∈ expl, t.isAnchor = false) → (∀ a ∈ ancs, a.isAnchor = true) →
      (injectEveryNGo everyN expl ancs count).filter (fun t => !t.isAnchor) = expl := by
  intro expl
  induction expl with
  | nil => intro ancs count _ _; rfl
  | cons t ts ih =>
    intro ancs count hexp hanc
    have ht : t.isAnchor = false := hexp t (List.mem_cons_self _ _)
    have hts : ∀ x ∈ ts, x.isAnchor = false := fun x hx => hexp x (List.mem_cons_of_mem _ hx)
    rw [injectEveryNGo.eq_def]
    dsimp only
    by_cases hc : everyN ≤ count + 1
    · rw [if_pos hc]
      rcases ancs with _ | ⟨a, rest⟩
      · rw [List.filter_cons_of_pos (by simp [ht]), ih [] _ hts (by simp)]
      · have ha : a.isAnchor = true := hanc a (List.mem_cons_self _ _)
        rw [List.filter_cons_of_pos (by simp [ht]), List.filter_cons_of_neg (by simp [ha]),
          ih rest 0 hts (fun x hx => hanc x (List.mem_cons_of_mem _ hx))]
    · rw [if_neg hc, List.filter_cons_of_pos (by simp [ht]), ih ancs _ hts hanc]

lemma filter_injectByEveryN (expl ancs : List Track) (everyN : ℤ)
    (hexp : ∀ t ∈ expl, t.isAnchor = false) (hanc : ∀ a ∈ ancs, a.isAnchor = true) :
    (injectByEveryN expl ancs everyN).filter (fun t => !t.isAnchor) = expl := by
  have hall : ∀ l : List Track, (∀ a ∈ l, a.isAnchor = true) →
      l.filter (fun t => !t.isAnchor) = [] := by
    intro l hl
    refine List.filter_eq_nil_iff.mpr fun a ha => by simp [hl a ha]
  rw [injectByEveryN]
  by_cases h0 : everyN ≤ 0
  · rw [if_pos h0]
    exact List.filter_eq_self.mpr fun t ht => by simp [hexp t ht]
  · rw [if_neg h0]
    by_cases hcase : expl.isEmpty && !ancs.isEmpty
    · rw [if_pos hcase]
      have hexpE : expl = [] := by
        rcases expl with _ | ⟨t, ts⟩
        · rfl
        · simp at hcase
      subst hexpE
      rw [List.filter_append, filter_injectEveryNGo everyN [] ancs 0 (by simp) hanc,
        hall _ fun a ha => hanc a (List.take_subset _ _ ha)]
      rfl
    · rw [if_neg hcase]
      exact filter_injectEveryNGo everyN expl ancs 0 hexp hanc

lemma filter_injectRatioGo (interval : ℕ) :
    ∀ (expl : List Track) (idx : ℕ) (used : List Track),
      (∀ t ∈ expl, t.isAnchor = false) → (∀ a ∈ used, a.isAnchor = true) →
      (injectRatioGo interval expl idx used).filter (fun t => !t.isAnchor) = expl := by
  intro expl
  induction expl with
  | nil =>
    intro idx used _ hanc
    rw [injectRatioGo.eq_def]
    exact List.filter_eq_nil_iff.mpr fun a ha => by simp [hanc a ha]
  | cons t ts ih =>
    intro idx used hexp hanc
    have ht : t.isAnchor = false := hexp t (List.mem_cons_self _ _)
    have hts : ∀ x ∈ ts, x.isAnchor = false := fun x hx => hexp x (List.mem_cons_of_mem _ hx)
    rw [injectRatioGo.eq_def]
    dsimp only
    by_cases hc : (idx + 1) % interval = 0
    · rw [if_pos hc]
      rcases used with _ | ⟨a, rest⟩
      · rw [List.filter_cons_of_pos (by simp [ht]), ih _ [] hts (by simp)]
      · have ha : a.isAnchor = true := hanc a (List.mem_cons_self _ _)
        rw [List.filter_cons_of_pos (by simp [ht]), List.filter_cons_of_neg (by simp [ha]),
          ih _ rest hts (fun x hx => hanc x (List.mem_cons_of_mem _ hx))]
    · rw [if_neg hc, List.filter_cons_of_pos (by simp [ht]), ih _ used hts hanc]

lemma filter_injectByRatio (expl ancs : List Track) (ratio : ℚ)
    (hexp : ∀ t ∈ expl, t.isAnchor = false) (hanc : ∀ a ∈ ancs, a.isAnchor = true) :
    (injectByRatio expl ancs ratio).filter (fun t => !t.isAnchor) = expl := by
  rw [injectByRatio]
  by_cases hE : expl.isEmpty
  · rw [if_pos hE, List.isEmpty_iff.mp hE]
    exact List.filter_eq_nil_iff.mpr fun a ha =>
      by simp [hanc a (List.take_subset _ _ ha)]
  · rw [if_neg hE]
    dsimp only
    generalize (max 0 (min ((ancs.length : ℤ))
      (pythonRound ((expl.length : ℚ) * ratio)))).toNat = target
    by_cases h0 : target = 0
    · rw [if_pos h0]
      exact List.filter_eq_self.mpr fun t ht => by simp [hexp t ht]
    · rw [if_neg h0]
      exact filter_injectRatioGo _ expl 0 (ancs.take target)
        hexp (fun a ha => hanc a (List.take_subset _ _ ha))

/-- C4 counterexample: the code truncates the exploration pool in *input*
order and only then sorts the kept tracks, while the claim truncates a prefix
of the strategy-*ordered* pool.  With strategy `flow_explore`, multiplier
`1/2` and pool `[hi(tempo 150), lo(tempo 100)]`, the code keeps and returns
`[hi]`, whereas the claim's order-then-truncate portion is `[lo]`. -/
theorem build_recommendation_order_counterexample :
    buildRecommendation [⟨"hi", 1/2, 150, false⟩, ⟨"lo", 1/2, 100, false⟩]
        ⟨(0, 1), (0, 200), 1/2, 0, none, "flow_explore"⟩ = [⟨"hi", 1/2, 150, false⟩]
    ∧ specExplorationPortion [⟨"hi", 1/2, 150, false⟩, ⟨"lo", 1/2, 100, false⟩]
        ⟨(0, 1), (0, 200), 1/2, 0, none, "flow_explore"⟩ = [⟨"lo", 1/2, 100, false⟩]
    ∧ ([(⟨"hi", 1/2, 150, false⟩ : Track)] : List Track) ≠ [⟨"lo", 1/2, 100, false⟩] := by
  refine ⟨?_, ?_, ?_⟩
  · have hs : filterSurvivors [⟨"hi", 1/2, 150, false⟩, ⟨"lo", 1/2, 100, false⟩]
        ⟨(0, 1), (0, 200), 1/2, 0, none, "flow_explore"⟩
        = [⟨"hi", 1/2, 150, false⟩, ⟨"lo", 1/2, 100, false⟩] := by
      norm_num [filterSurvivors, withinRange]
    have hsel : selectExplorationTracks [⟨"hi", 1/2, 150, false⟩, ⟨"lo", 1/2, 100, false⟩]
        ⟨(0, 1), (0, 200), 1/2, 0, none, "flow_explore"⟩ = [⟨"hi", 1/2, 150, false⟩] := by
      norm_num [selectExplorationTracks, pythonRound]
    rw [buildRecommendation]
    dsimp only
    rw [explorationPartition, explorationPool, anchorPartition, hs]
    rw [show List.filter (fun t => !t.isAnchor)
        [(⟨"hi", 1/2, 150, false⟩ : Track), ⟨"lo", 1/2, 100, false⟩]
        = [⟨"hi", 1/2, 150, false⟩, ⟨"lo", 1/2, 100, false⟩] from rfl]
    rw [show List.filter (fun t => t.isAnchor)
        [(⟨"hi", 1/2, 150, false⟩ : Track), ⟨"lo", 1/2, 100, false⟩] = [] from rfl]
    rw [hsel]
    norm_num [orderTracks, stableSortBy, insertStrictBy, injectByRatio, pythonRound]
  · have hlt : keyLtTempoEnergy ⟨"lo", 1/2, 100, false⟩ ⟨"hi", 1/2, 150, false⟩ = true := by
      norm_num [keyLtTempoEnergy]
    have hs : filterSurvivors [⟨"hi", 1/2, 150, false⟩, ⟨"lo", 1/2, 100, false⟩]
        ⟨(0, 1), (0, 200), 1/2, 0, none, "flow_explore"⟩
        = [⟨"hi", 1/2, 150, false⟩, ⟨"lo", 1/2, 100, false⟩] := by
      norm_num [filterSurvivors, withinRange]
    rw [specExplorationPortion, explorationPool, hs]
    rw [show List.filter (fun t => !t.isAnchor)
        [(⟨"hi", 1/2, 150, false⟩ : Track), ⟨"lo", 1/2, 100, false⟩]
        = [⟨"hi", 1/2, 150, false⟩, ⟨"lo", 1/2, 100, false⟩] from rfl]
    have hord : orderTracks ⟨(0, 1), (0, 200), 1/2, 0, none, "flow_explore"⟩
        [⟨"hi", 1/2, 150, false⟩, ⟨"lo", 1/2, 100, false⟩]
        = [⟨"lo", 1/2, 100, false⟩, ⟨"hi", 1/2, 150, false⟩] := by
      norm_num [orderTracks, stableSortBy, insertStrictBy, hlt]
    rw [hord]
    norm_num [selectExplorationTracks, pythonRound]
  · intro h
    have := congrArg (fun l => (l.headD ⟨"", 0, 0, false⟩).id) h
    simp at this

/-- C4 (amended): the exploration portion of `build_recommendation`'s result
(the non-anchor subsequence of the output) is obtained by truncating the
unflagged range-surviving pool in *input* order to
`round(len * exploration_multiplier)` items clamped to `[0, len]`, and then
ordering that kept prefix per the plan's `sequencing_strategy` (the claimed
per-strategy sort keys; the claim's order-then-truncate reading fails, see
the counterexample). -/
theorem build_recommendation_exploration (cands : List Track) (plan : RecommendationPlan) :
    (buildRecommendation cands plan).filter (fun t => !t.isAnchor)
      = orderTracks plan (selectExplorationTracks (explorationPool cands plan) plan) := by
  rw [buildRecommendation]
  rcases hn : plan.anchorEveryN with _ | n
  · exact filter_injectByRatio _ _ _ (mem_explorationPartition_non_anchor cands plan)
      (mem_anchorPartition_anchor cands plan)
  · exact filter_injectByEveryN _ _ _ (mem_explorationPartition_non_anchor cands plan)
      (mem_anchorPartition_anchor cands plan)

/-- C9: when `anchor_every_n` is None and the ordered-and-truncated
exploration list is empty while flagged anchors survive the range filter,
`build_recommendation` returns exactly the first anchor in strategy order,
silently dropping the rest regardless of `anchor_ratio`. -/
theorem build_recommendation_lone_anchor (cands : List Track) (plan : RecommendationPlan)
    (hn : plan.anchorEveryN = none)
    (hexp : explorationPartition cands plan = [])
    (a : Track) (rest : List Track) (hanch : anchorPartition cands plan = a :: rest) :
    buildRecommendation cands plan = [a] := by
  rw [buildRecommendation, hn, hexp, hanch]
  rfl

/-- C9 witness: two surviving anchors, an empty exploration pool, and a plan
with `anchor_every_n = None`: only the first anchor is returned. -/
theorem build_recommendation_lone_anchor_witness :
    buildRecommendation [⟨"A1", 1/2, 100, true⟩, ⟨"A2", 1/2, 120, true⟩]
      ⟨(0, 1), (0, 200), 1, 1/2, none, "balanced"⟩ = [⟨"A1", 1/2, 100, true⟩] := by
  have hs : filterSurvivors [⟨"A1", 1/2, 100, true⟩, ⟨"A2", 1/2, 120, true⟩]
      ⟨(0, 1), (0, 200), 1, 1/2, none, "balanced"⟩
      = [⟨"A1", 1/2, 100, true⟩, ⟨"A2", 1/2, 120, true⟩] := by
    norm_num [filterSurvivors, withinRange]
  refine build_recommendation_lone_anchor _ _ rfl ?_ ⟨"A1", 1/2, 100, true⟩
    [⟨"A2", 1/2, 120, true⟩] ?_
  · rw [explorationPartition, explorationPool, hs]
    rfl
  · rw [anchorPartition, hs]
    rfl

/-! ### Lemmas about the context engine -/

lemma stateConfig_isSome_iff (st : String) :
    (stateConfig st).isSome ↔ st ∈ SESSION_STATES := by
  rw [stateConfig]
  split_ifs <;> simp_all [SESSION_STATES]

lemma priors_of_block {tb : String} (h : tb ∈ TIME_BLOCKS) :
    ∃ ep tp, energyPrior tb = some ep ∧ tempoPrior tb = some tp := by
  simp only [TIME_BLOCKS, List.mem_cons, List.not_mem_nil, or_false] at h
  rcases h with rfl | rfl | rfl | rfl | rfl <;> exact ⟨_, _, rfl, rfl⟩

lemma validateContext_none_iff (ctx : ListeningContext) :
    validateContext ctx = none
      ↔ (ctx.timeBlock ∈ TIME_BLOCKS ∧ ctx.sessionState ∈ SESSION_STATES
          ∧ (0 ≤ ctx.fatigueScore ∧ ctx.fatigueScore ≤ 1)
          ∧ ∀ e, ctx.energyOverride = some e → (0 ≤ e ∧ e ≤ 1)) := by
  have hcfg2 : (stateConfig ctx.sessionState).isNone = true
      ↔ ctx.sessionState ∉ SESSION_STATES := by
    rw [← stateConfig_isSome_iff]
    cases stateConfig ctx.sessionState <;> simp
  rw [validateContext]
  by_cases h1 : ctx.timeBlock ∉ TIME_BLOCKS
  · rw [if_pos h1]
    simp [h1]
  · rw [if_neg h1]
    rw [not_not] at h1
    by_cases h2 : (stateConfig ctx.sessionState).isNone
    · rw [if_pos h2]
      simp [h1, hcfg2.mp h2]
    · rw [if_neg h2]
      have h2' : ctx.sessionState ∈ SESSION_STATES := by
        by_contra hc
        exact h2 (hcfg2.mpr hc)
      by_cases h3 : ¬ (0 ≤ ctx.fatigueScore ∧ ctx.fatigueScore ≤ 1)
      · rw [if_pos h3]
        simp [h1, h2', h3]
      · rw [if_neg h3]
        rw [not_not] at h3
        rcases ho : ctx.energyOverride with _ | e
        · simp [h1, h2', h3, ho]
        · dsimp only
          by_cases h4 : ¬ (0 ≤ e ∧ e ≤ 1)
          · rw [if_pos h4]
            simp [h1, h2', h3, h4, ho]
          · rw [if_neg h4]
            rw [not_not] at h4
            simp [h1, h2', h3, h4, ho]

/-- C8: `compute_recommendation_plan` raises a ValueError (synchronously, at
validation) if and only if the time block is unknown, the session state is
unknown, the fatigue score is outside `[0,1]`, or a present energy override is
outside `[0,1]`; for every other context (with the DNA profile supplying its
energy and tempo means, per the provider interface) it returns a plan without
raising: in particular the post-validation table lookups can never fail. -/
theorem compute_recommendation_plan_validation (ctx : ListeningContext) :
    ((∃ msg, computeRecommendationPlan ctx = .error msg)
      ↔ (ctx.timeBlock ∉ TIME_BLOCKS ∨ ctx.sessionState ∉ SESSION_STATES
          ∨ ¬ (0 ≤ ctx.fatigueScore ∧ ctx.fatigueScore ≤ 1)
          ∨ ∃ e, ctx.energyOverride = some e ∧ ¬ (0 ≤ e ∧ e ≤ 1)))
    ∧ ((∃ plan, computeRecommendationPlan ctx = .ok plan)
      ↔ ¬ (ctx.timeBlock ∉ TIME_BLOCKS ∨ ctx.sessionState ∉ SESSION_STATES
          ∨ ¬ (0 ≤ ctx.fatigueScore ∧ ctx.fatigueScore ≤ 1)
          ∨ ∃ e, ctx.energyOverride = some e ∧ ¬ (0 ≤ e ∧ e ≤ 1))) := by
  have hok : validateContext ctx = none →
      ∃ plan, computeRecommendationPlan ctx = .ok plan := by
    intro h
    obtain ⟨tbmem, stmem, -, -⟩ := (validateContext_none_iff ctx).mp h
    obtain ⟨ep, tp, hep, htp⟩ := priors_of_block tbmem
    obtain ⟨cfg, hcfg⟩ := Option.isSome_iff_exists.mp ((stateConfig_isSome_iff _).mpr stmem)
    rw [computeRecommendationPlan, h, hcfg, hep, htp]
    exact ⟨_, rfl⟩
  have herr : ∀ msg, validateContext ctx = some msg →
      computeRecommendationPlan ctx = .error msg := by
    intro msg h
    rw [computeRecommendationPlan, h]
  have hiff1 : (∃ msg, computeRecommendationPlan ctx = .error msg)
      ↔ (ctx.timeBlock ∉ TIME_BLOCKS ∨ ctx.sessionState ∉ SESSION_STATES
          ∨ ¬ (0 ≤ ctx.fatigueScore ∧ ctx.fatigueScore ≤ 1)
          ∨ ∃ e, ctx.energyOverride = some e ∧ ¬ (0 ≤ e ∧ e ≤ 1)) := by
    constructor
    · rintro ⟨msg, hmsg⟩
      by_contra hC
      push_neg at hC
      obtain ⟨h1, h2, h3, h4⟩ := hC
      have hnone : validateContext ctx = none :=
        (validateContext_none_iff ctx).mpr ⟨h1, h2, h3, fun e he => h4 e he⟩
      obtain ⟨plan, hplan⟩ := hok hnone
      rw [hmsg] at hplan
      cases hplan
    · intro hC
      rcases hv : validateContext ctx with _ | msg
      · exfalso
        obtain ⟨h1, h2, h3, h4⟩ := (validateContext_none_iff ctx).mp hv
        rcases hC with h | h | h | ⟨e, he, hne⟩
        · exact h h1
        · exact h h2
        · exact h h3
        · exact hne (h4 e he)
      · exact ⟨msg, herr msg hv⟩
  refine ⟨hiff1, ?_, ?_⟩
  · rintro ⟨plan, hplan⟩ hC
    obtain ⟨msg, hmsg⟩ := hiff1.mpr hC
    rw [hplan] at hmsg
    cases hmsg
  · intro hC
    rcases hv : validateContext ctx with _ | msg
    · exact hok hv
    · exact absurd (hiff1.mp ⟨msg, herr msg hv⟩) hC

/-- C8 witness: a fully valid context returns a plan; an unknown block
raises. -/
theorem compute_recommendation_plan_validation_witness :
    (∃ plan, computeRecommendationPlan
        ⟨"EVENING", "NEUTRO", none, ⟨1/2, 120⟩, 0, none⟩ = .ok plan)
    ∧ (∃ msg, computeRecommendationPlan
        ⟨"DAWN", "NEUTRO", none, ⟨1/2, 120⟩, 0, none⟩ = .error msg) := by
  constructor
  · refine (compute_recommendation_plan_validation _).2.mpr ?_
    rintro (h | h | h | ⟨e, he, -⟩)
    · exact h (by simp [TIME_BLOCKS])
    · exact h (by simp [SESSION_STATES])
    · exact h (by norm_num)
    · cases he
  · refine (compute_recommendation_plan_validation _).1.mpr ?_
    exact Or.inl (by simp [TIME_BLOCKS])

end SpotifyGpt

